import Mathlib

/-!
Verification of the web-page summarizer pipeline (src/main.py).

Python strings are modelled as `List Char`; the HTTP client, the HTML parser
and the generative-model endpoint are external collaborators and are modelled
as parameters (the list of text fragments extracted by the parser, the raw
payload returned by the model).  Sizes and counts are naturals, matching the
validity ranges of the claims (`maxLen >= 1`, `overlap >= 0`, `bullets >= 0`).
-/

/-- Shorthand: the character list of a string literal. -/
def cl (s : String) : List Char := s.data

/-- ASCII whitespace, as recognised by Python's `str.split`, `str.strip`
and the regex class `\s` (the Unicode extras never arise here). -/
def isPySpace (c : Char) : Bool :=
  c = ' ' || c = '\t' || c = '\n' || c = '\r' || c = '\x0b' || c = '\x0c'

/-- Helper for `pySplit`: accumulate the current word (reversed). -/
def pySplitAux : List Char → List Char → List (List Char)
  | [], acc => if acc.isEmpty then [] else [acc.reverse]
  | c :: cs, acc =>
    if isPySpace c then
      if acc.isEmpty then pySplitAux cs [] else acc.reverse :: pySplitAux cs []
    else pySplitAux cs (c :: acc)

/-- Python `s.split()`: split on runs of whitespace, dropping empty pieces. -/
def pySplit (l : List Char) : List (List Char) := pySplitAux l []

/-- Helper for `collapseWS`: the flag records whether we are inside a
whitespace run that has already emitted its single space. -/
def collapseWSAux : List Char → Bool → List Char
  | [], _ => []
  | c :: cs, inRun =>
    if isPySpace c then
      if inRun then collapseWSAux cs true else ' ' :: collapseWSAux cs true
    else c :: collapseWSAux cs false

/-- Python `re.sub(r"\s+", " ", x)`: every maximal whitespace run becomes
one space. -/
def collapseWS (l : List Char) : List Char := collapseWSAux l false

/-- Python `s.strip()`: drop leading and trailing whitespace. -/
def pyStrip (l : List Char) : List Char :=
  ((l.dropWhile isPySpace).reverse.dropWhile isPySpace).reverse

/-- Python `seg.rfind(c)`: index of the last occurrence, `-1` when absent
(found by looking for the first occurrence in the reversed list). -/
def pyRfind (l : List Char) (c : Char) : Int :=
  match l.reverse.findIdx? (· == c) with
  | some k => ((l.length - 1 - k : Nat) : Int)
  | none => -1

/-- The body of one iteration of `chunks` (src/main.py lines 36-38):
`seg = s[i:i+n]; j = seg.rfind("\n"); if j > n*0.6: seg = seg[:j]`.
The float comparison `j > n * 0.6` is modelled exactly as the rational
comparison `10 * j > 6 * n` (the double `0.6` rounds to the same comparison
for every magnitude arising here). -/
def segAt (s : List Char) (n : Nat) (i : Nat) : List Char :=
  if 6 * (n : Int) < 10 * pyRfind ((s.drop i).take n) '\n' then
    ((s.drop i).take n).take (pyRfind ((s.drop i).take n) '\n').toNat
  else (s.drop i).take n

/-- The `while i < len(s)` loop of `chunks` (src/main.py lines 34-40),
written with explicit fuel; `fuel = s.length` always suffices because the
offset advances by at least 1 per iteration. -/
def chunksLoop : Nat → List Char → Nat → Nat → Nat → List (List Char)
  | 0, _, _, _, _ => []
  | fuel + 1, s, n, ov, i =>
    if i < s.length then
      segAt s n i :: chunksLoop fuel s n ov (i + max 1 ((segAt s n i).length - ov))
    else []

/-- Python `chunks(s, n=12000, overlap=400)` (src/main.py lines 32-40): the full
(finite) list of chunks produced by the generator. -/
def chunks (s : List Char) (n : Nat) (ov : Nat) : List (List Char) :=
  if s.length ≤ n then [s] else chunksLoop s.length s n ov 0

/-- Offsets visited by the chunker loop on newline-free input: the window
then always has length `min n (L - i)`, so the offsets depend only on the
input length `L`.  (Derived specification device, proven against
`chunksLoop` below.) -/
def offsetsLoop : Nat → Nat → Nat → Nat → Nat → List Nat
  | 0, _, _, _, _ => []
  | fuel + 1, L, n, ov, i =>
    if i < L then i :: offsetsLoop fuel L n ov (i + max 1 (min n (L - i) - ov))
    else []

theorem take_min_length {α : Type} (l : List α) (a : Nat) :
    l.take (min a l.length) = l.take a := by
  rcases Nat.le_total a l.length with h | h
  · rw [Nat.min_eq_left h]
  · rw [Nat.min_eq_right h, List.take_length, List.take_of_length_le h]

theorem take_eq_take_own_length {α : Type} (l : List α) (a : Nat) :
    l.take a = l.take ((l.take a).length) := by
  rw [List.length_take, take_min_length]

theorem pyRfind_toNat_lt {l : List Char} {c : Char} (h : 0 ≤ pyRfind l c) :
    (pyRfind l c).toNat < l.length := by
  cases hf : l.reverse.findIdx? (· == c) with
  | none => simp only [pyRfind, hf] at h; omega
  | some k =>
    simp only [pyRfind, hf] at h ⊢
    have hl : l ≠ [] := by
      intro he; subst he; simp at hf
    have h1 : 1 ≤ l.length := List.length_pos.mpr hl
    omega

theorem pyRfind_of_not_mem {l : List Char} {c : Char} (h : c ∉ l) :
    pyRfind l c = -1 := by
  have hf : l.reverse.findIdx? (· == c) = none := by
    rw [List.findIdx?_eq_none_iff]
    intro x hx
    have hxl : x ∈ l := List.mem_reverse.mp hx
    have hne : x ≠ c := fun he => h (he ▸ hxl)
    simp [hne]
  simp [pyRfind, hf]

theorem segAt_eq_take_drop (s : List Char) (n i : Nat) :
    segAt s n i = (s.drop i).take ((segAt s n i).length) := by
  unfold segAt
  split
  · rw [List.take_take]
    exact take_eq_take_own_length _ _
  · exact take_eq_take_own_length _ _

theorem segAt_length_le (s : List Char) (n i : Nat) :
    (segAt s n i).length ≤ min n (s.length - i) := by
  unfold segAt
  split
  · simp only [List.length_take, List.length_drop]
    omega
  · simp only [List.length_take, List.length_drop]
    omega

theorem segAt_length_pos {s : List Char} {n i : Nat} (hn : 1 ≤ n)
    (hi : i < s.length) : 1 ≤ (segAt s n i).length := by
  unfold segAt
  split
  · next hcond =>
    have hj : 1 ≤ (pyRfind ((s.drop i).take n) '\n').toNat := by omega
    simp only [List.length_take, List.length_drop]
    omega
  · simp only [List.length_take, List.length_drop]
    omega

theorem segAt_end_le {s : List Char} {n i : Nat} (hi : i < s.length) :
    i + (segAt s n i).length ≤ s.length := by
  have h := segAt_length_le s n i
  omega

theorem chunksLoop_nil (fuel : Nat) (s : List Char) (n ov i : Nat)
    (h : s.length ≤ i) : chunksLoop fuel s n ov i = [] := by
  cases fuel with
  | zero => rfl
  | succ fuel => simp [chunksLoop, Nat.not_lt.mpr h]

/-- Loop invariant for the chunker: the loop output is the list of windows
`segAt` at an increasing list of start offsets, the first offset is the
entry offset, consecutive offsets advance by `max 1 (len seg - overlap)`,
and the final window ends exactly at the end of the input. -/
theorem chunksLoop_spec (s : List Char) (n ov : Nat) (hn : 1 ≤ n) :
    ∀ fuel i, i < s.length → s.length ≤ fuel + i →
    ∃ starts : List Nat,
      chunksLoop fuel s n ov i = starts.map (fun k => segAt s n k) ∧
      starts.head? = some i ∧
      (∀ k ∈ starts, k < s.length) ∧
      List.Chain' (fun a b => b = a + max 1 ((segAt s n a).length - ov)) starts ∧
      (∃ k, starts.getLast? = some k ∧
        k + (segAt s n k).length = s.length) := by
  intro fuel
  induction fuel with
  | zero => intro i hi hle; omega
  | succ fuel ih =>
    intro i hi hle
    have hL1 : 1 ≤ (segAt s n i).length := segAt_length_pos hn hi
    have hstep : max 1 ((segAt s n i).length - ov) ≤ (segAt s n i).length := by
      omega
    by_cases h' : i + max 1 ((segAt s n i).length - ov) < s.length
    · obtain ⟨starts', heq, hhead, hmem, hchain, k, hlast, hend⟩ :=
        ih (i + max 1 ((segAt s n i).length - ov)) h' (by omega)
      refine ⟨i :: starts', ?_, rfl, ?_, ?_, ?_⟩
      · simp only [chunksLoop, if_pos hi, heq, List.map_cons]
      · intro k hk
        rcases List.mem_cons.mp hk with rfl | hk
        · exact hi
        · exact hmem _ hk
      · rw [List.chain'_cons']
        exact ⟨fun y hy => by rw [hhead] at hy; cases hy; rfl, hchain⟩
      · refine ⟨k, ?_, hend⟩
        cases starts' with
        | nil => simp at hhead
        | cons a l => rw [List.getLast?_cons_cons]; exact hlast
    · refine ⟨[i], ?_, rfl, ?_, ?_, ?_⟩
      · simp only [chunksLoop, if_pos hi, List.map_cons, List.map_nil]
        rw [chunksLoop_nil _ _ _ _ _ (by omega)]
      · intro k hk
        rcases List.mem_singleton.mp hk with rfl
        exact hi
      · exact List.chain'_singleton _
      · refine ⟨i, rfl, ?_⟩
        have h1 : i + (segAt s n i).length ≤ s.length := segAt_end_le hi
        omega

theorem chain'_imp_mem {α : Type} {R S : α → α → Prop} :
    ∀ {l : List α}, List.Chain' R l →
      (∀ a ∈ l, ∀ b ∈ l, R a b → S a b) → List.Chain' S l
  | [], _, _ => List.chain'_nil
  | [_], _, _ => List.chain'_singleton _
  | a :: b :: l, h, himp => by
    rw [List.chain'_cons] at h ⊢
    refine ⟨himp a (by simp) b (by simp) h.1, ?_⟩
    exact chain'_imp_mem h.2 fun x hx y hy hr =>
      himp x (List.mem_cons_of_mem _ hx) y (List.mem_cons_of_mem _ hy) hr

/-- Claim C1: for every string `s` and valid parameters (`maxLen ≥ 1`,
`overlap ≥ 0`), `chunks(s, maxLen, overlap)` is a finite list with at least
one chunk; every chunk is the contiguous substring `s[a:b]` of `s` for a
span `(a, b)` with `a ≤ b ≤ len(s)`; the FIRST span starts at offset 0;
each chunk after the first starts at or before the end of its predecessor
(no gaps); and the last chunk ends exactly at the end of `s` — so together
the spans cover the entire input. -/
theorem chunks_total_coverage (s : List Char) (n ov : Nat) (hn : 1 ≤ n) :
    ∃ spans : List (Nat × Nat),
      spans ≠ [] ∧
      chunks s n ov = spans.map (fun p => (s.drop p.1).take (p.2 - p.1)) ∧
      (∀ p ∈ spans, p.1 ≤ p.2 ∧ p.2 ≤ s.length) ∧
      (∃ p, spans.head? = some p ∧ p.1 = 0) ∧
      List.Chain' (fun p q => q.1 ≤ p.2) spans ∧
      (∃ p, spans.getLast? = some p ∧ p.2 = s.length) := by
  by_cases hshort : s.length ≤ n
  · refine ⟨[(0, s.length)], by simp, ?_, ?_, ⟨(0, s.length), rfl, rfl⟩,
      List.chain'_singleton _, ⟨(0, s.length), rfl, rfl⟩⟩
    · simp [chunks, hshort]
    · intro p hp
      rcases List.mem_singleton.mp hp with rfl
      exact ⟨Nat.zero_le _, le_refl _⟩
  · push_neg at hshort
    have h0 : 0 < s.length := by omega
    obtain ⟨starts, heq, hhead, hmem, hchain, k, hlast, hend⟩ :=
      chunksLoop_spec s n ov hn s.length 0 h0 (by omega)
    have hchunks : chunks s n ov = starts.map (fun a => segAt s n a) := by
      rw [chunks, if_neg (by omega)]
      exact heq
    refine ⟨starts.map (fun a => (a, a + (segAt s n a).length)),
      ?_, ?_, ?_, ?_, ?_, ?_⟩
    · cases starts with
      | nil => simp at hhead
      | cons a l => simp
    · rw [hchunks, List.map_map]
      refine List.map_congr_left fun a _ => ?_
      simp only [Function.comp_apply, Nat.add_sub_cancel_left]
      exact segAt_eq_take_drop s n a
    · intro p hp
      obtain ⟨a, ha, rfl⟩ := List.mem_map.mp hp
      exact ⟨Nat.le_add_right _ _, segAt_end_le (hmem a ha)⟩
    · refine ⟨(0, 0 + (segAt s n 0).length), ?_, rfl⟩
      rw [List.head?_map, hhead]
      rfl
    · rw [List.chain'_map]
      refine chain'_imp_mem hchain fun a ha b _ hr => ?_
      have h1 : 1 ≤ (segAt s n a).length := segAt_length_pos hn (hmem a ha)
      simp only
      omega
    · refine ⟨(k, k + (segAt s n k).length), ?_, hend⟩
      rw [List.getLast?_map, hlast]
      rfl

/-- Claim C1 witness: the coverage theorem applied at a concrete input. -/
theorem chunks_total_coverage_witness :
    1 ≤ 3 ∧
    ∃ spans : List (Nat × Nat),
      spans ≠ [] ∧
      chunks (cl "hello world") 3 1 =
        spans.map (fun p => ((cl "hello world").drop p.1).take (p.2 - p.1)) ∧
      (∀ p ∈ spans, p.1 ≤ p.2 ∧ p.2 ≤ (cl "hello world").length) ∧
      (∃ p, spans.head? = some p ∧ p.1 = 0) ∧
      List.Chain' (fun p q => q.1 ≤ p.2) spans ∧
      (∃ p, spans.getLast? = some p ∧ p.2 = (cl "hello world").length) :=
  ⟨by decide, chunks_total_coverage (cl "hello world") 3 1 (by decide)⟩

/-- Claim C7: if `len(s) ≤ maxLen` then the chunker yields exactly one
chunk, equal to `s` itself, for every `maxLen` and `overlap`. -/
theorem chunks_short_identity (s : List Char) (n ov : Nat)
    (h : s.length ≤ n) : chunks s n ov = [s] := by
  simp [chunks, h]

/-- Claim C7 witness: the short-input identity at a concrete input. -/
theorem chunks_short_identity_witness :
    (cl "ab").length ≤ 12000 ∧ chunks (cl "ab") 12000 400 = [cl "ab"] :=
  ⟨by decide, chunks_short_identity _ _ _ (by decide)⟩

/-- Claim C5 counterexample: with `maxLen = 10` the input
`"abcdef\nghijk"` has its first window equal to `"abcdef\nghi"`, whose last
line-break sits at index 6, exactly at position `0.6 * maxLen`
(`10 * 6 = 6 * 10`).  The claim says such a window is truncated at that
line-break (yielding `"abcdef"`), but the code compares strictly
(`j > n*0.6`) and yields the FULL window `"abcdef\nghi"`. -/
theorem chunks_newline_boundary_cex :
    pyRfind (((cl "abcdef\nghijk").drop 0).take 10) '\n' = 6 ∧
    10 * (6 : Int) = 6 * 10 ∧
    (chunks (cl "abcdef\nghijk") 10 0).head? = some (cl "abcdef\nghi") ∧
    cl "abcdef\nghi" ≠ cl "abcdef" := by decide

/-- Claim C5 (amended): in every chunker iteration over an input longer
than `maxLen`, the yielded chunk is the window `s[i:i+maxLen]`, truncated
to end at its last line-break only when that line-break lies STRICTLY
after position `0.6 * maxLen` (`10*j > 6*n`); when the last line-break is
at or before that position (including exactly at it), the full window is
yielded. -/
theorem chunks_newline_truncation (s : List Char) (n ov : Nat) (hn : 1 ≤ n)
    (hlong : n < s.length) :
    (∀ c ∈ chunks s n ov, ∃ i, i < s.length ∧ c = segAt s n i) ∧
    (∀ i, 10 * pyRfind ((s.drop i).take n) '\n' ≤ 6 * (n : Int) →
      segAt s n i = (s.drop i).take n) ∧
    (∀ i, 6 * (n : Int) < 10 * pyRfind ((s.drop i).take n) '\n' →
      segAt s n i =
        ((s.drop i).take n).take (pyRfind ((s.drop i).take n) '\n').toNat) := by
  refine ⟨?_, ?_, ?_⟩
  · intro c hc
    rw [chunks, if_neg (by omega)] at hc
    obtain ⟨starts, heq, hhead, hmem, hchain, hlast⟩ :=
      chunksLoop_spec s n ov hn s.length 0 (by omega) (by omega)
    rw [heq] at hc
    obtain ⟨i, hi, rfl⟩ := List.mem_map.mp hc
    exact ⟨i, hmem i hi, rfl⟩
  · intro i hle
    unfold segAt
    rw [if_neg (by omega)]
  · intro i hlt
    unfold segAt
    rw [if_pos hlt]

/-- Claim C5 witness: the amended truncation theorem applied at a concrete
input; the first chunk of `"abcdef\nghijk"` is one of the windows. -/
theorem chunks_newline_truncation_witness :
    ∃ i, i < (cl "abcdef\nghijk").length ∧
      cl "abcdef\nghi" = segAt (cl "abcdef\nghijk") 10 i :=
  (chunks_newline_truncation (cl "abcdef\nghijk") 10 0 (by decide)
    (by decide)).1 (cl "abcdef\nghi") (by decide)

/-- The per-fragment filter of `fetch_clean` (src/main.py line 26):
`if txt and len(txt.split()) >= 3`. -/
def keepFragment (t : List Char) : Bool :=
  !t.isEmpty && decide (3 ≤ (pySplit t).length)

/-- The retained text fragments, in document order (src/main.py
lines 23-26); the HTML parse is abstracted as the fragment list `frags`,
one entry per matched element's `get_text(" ", strip=True)`. -/
def partsOf (frags : List (List Char)) : List (List Char) :=
  frags.filter keepFragment

/-- Python `"\n".join(parts)`. -/
def joinNL (parts : List (List Char)) : List Char :=
  List.intercalate ['\n'] parts

/-- The cleaned page text (src/main.py line 27):
`re.sub(r"\s+", " ", "\n".join(parts)).strip()`. -/
def cleanedText (frags : List (List Char)) : List Char :=
  pyStrip (collapseWS (joinNL (partsOf frags)))

/-- The title extraction (src/main.py line 20):
`(soup.title.string or "").strip() if soup.title else ""`; `titleTag` is
`none` when the page has no `<title>` (or its string is None). -/
def titleOf (titleTag : Option (List Char)) : List Char :=
  match titleTag with
  | some t => pyStrip t
  | none => []

/-- Model of `fetch_clean` (src/main.py lines 13-30) after the external HTTP GET and
HTML parse: returns the pair `(title, text)`, or the terminal
`SystemExit` error when the cleaned text is empty. -/
def fetch_clean_model (titleTag : Option (List Char))
    (frags : List (List Char)) : Except (List Char) (List Char × List Char) :=
  if (cleanedText frags).isEmpty then
    Except.error (cl "Could not extract readable text from the page.")
  else Except.ok (titleOf titleTag, cleanedText frags)

/-- Claim C8: a collected fragment is retained by fetch_clean's filter iff
it has at least 3 whitespace-separated words (any nonempty fragment with
≥ 3 words is kept; fewer than 3 words is dropped); in particular a 2-word
fragment is dropped and a 3-word fragment is kept. -/
theorem min_word_filter :
    (∀ (frags : List (List Char)) (t : List Char), t ∈ frags →
      (t ∈ partsOf frags ↔ 3 ≤ (pySplit t).length)) ∧
    keepFragment (cl "a b") = false ∧ keepFragment (cl "a b c") = true := by
  refine ⟨?_, by decide, by decide⟩
  intro frags t ht
  rw [partsOf, List.mem_filter]
  constructor
  · rintro ⟨-, hk⟩
    rw [keepFragment, Bool.and_eq_true] at hk
    exact of_decide_eq_true hk.2
  · intro h3
    refine ⟨ht, ?_⟩
    have hne : t.isEmpty = false := by
      cases t with
      | nil => simp [pySplit, pySplitAux] at h3
      | cons c cs => rfl
    rw [keepFragment, hne]
    simp [h3]

/-- Claim C8 witness: the filter theorem at a concrete fragment list. -/
theorem min_word_filter_witness :
    (cl "a b c" ∈ [cl "a b", cl "a b c"]) ∧
    (cl "a b c" ∈ partsOf [cl "a b", cl "a b c"] ↔
      3 ≤ (pySplit (cl "a b c")).length) :=
  ⟨by decide, min_word_filter.1 _ _ (by decide)⟩

/-- Claim C9: fetch_clean raises the terminal error (distinct message
"Could not extract readable text from the page.") exactly when the
extracted text is empty after filtering and normalisation, and every
successful return carries non-empty text. -/
theorem fetch_clean_empty_fatal :
    (∀ titleTag frags title text,
      fetch_clean_model titleTag frags = Except.ok (title, text) →
      text ≠ []) ∧
    (∀ titleTag frags, cleanedText frags = [] →
      fetch_clean_model titleTag frags =
        Except.error (cl "Could not extract readable text from the page.")) := by
  constructor
  · intro titleTag frags title text h
    rw [fetch_clean_model] at h
    by_cases he : (cleanedText frags).isEmpty
    · rw [if_pos he] at h; cases h
    · rw [if_neg he] at h
      simp only [Except.ok.injEq, Prod.mk.injEq] at h
      obtain ⟨-, htext⟩ := h
      subst htext
      intro hnil
      exact he (by rw [hnil]; rfl)
  · intro titleTag frags h
    rw [fetch_clean_model, if_pos (by rw [h]; rfl)]

/-- Claim C9 witness: a 3-word page succeeds with non-empty text; an empty
fragment list yields the terminal error. -/
theorem fetch_clean_empty_fatal_witness :
    cl "a b c" ≠ [] ∧
    fetch_clean_model none [] =
      Except.error (cl "Could not extract readable text from the page.") :=
  ⟨fetch_clean_empty_fatal.1 none [cl "a b c"] [] (cl "a b c") rfl,
   fetch_clean_empty_fatal.2 none [] (by decide)⟩

theorem mem_collapseWSAux {c : Char} (l : List Char) :
    ∀ b, c ∈ collapseWSAux l b → c = ' ' ∨ (c ∈ l ∧ isPySpace c = false) := by
  induction l with
  | nil => intro b h; simp [collapseWSAux] at h
  | cons x xs ih =>
    intro b h
    rw [collapseWSAux] at h
    by_cases hsp : isPySpace x
    · rw [if_pos hsp] at h
      have h' : c ∈ collapseWSAux xs true ∨ c = ' ' := by
        by_cases hb : b = true
        · rw [if_pos hb] at h; exact Or.inl h
        · rw [if_neg hb] at h
          rcases List.mem_cons.mp h with rfl | h'
          · exact Or.inr rfl
          · exact Or.inl h'
      rcases h' with h' | rfl
      · rcases ih true h' with h'' | ⟨hm, hns⟩
        · exact Or.inl h''
        · exact Or.inr ⟨List.mem_cons_of_mem _ hm, hns⟩
      · exact Or.inl rfl
    · rw [if_neg hsp] at h
      rcases List.mem_cons.mp h with rfl | h'
      · exact Or.inr ⟨List.mem_cons_self _ _, by
          rw [Bool.not_eq_true] at hsp; exact hsp⟩
      · rcases ih false h' with h'' | ⟨hm, hns⟩
        · exact Or.inl h''
        · exact Or.inr ⟨List.mem_cons_of_mem _ hm, hns⟩

theorem mem_pyStrip {c : Char} {l : List Char} (h : c ∈ pyStrip l) : c ∈ l := by
  rw [pyStrip] at h
  have h1 := List.mem_reverse.mp h
  have h2 := (List.dropWhile_sublist _).subset h1
  have h3 := List.mem_reverse.mp h2
  exact (List.dropWhile_sublist _).subset h3

theorem no_newline_cleanedText (frags : List (List Char)) :
    '\n' ∉ cleanedText frags := by
  intro hmem
  have h1 : '\n' ∈ collapseWS (joinNL (partsOf frags)) := mem_pyStrip hmem
  rcases mem_collapseWSAux _ _ h1 with h2 | ⟨-, hns⟩
  · exact absurd h2 (by decide)
  · exact absurd hns (by decide)

theorem segAt_no_newline {s : List Char} (hnl : '\n' ∉ s) (n i : Nat) :
    segAt s n i = (s.drop i).take n := by
  have hwin : '\n' ∉ (s.drop i).take n := fun h =>
    hnl ((List.drop_sublist _ _).subset ((List.take_sublist _ _).subset h))
  rw [segAt, pyRfind_of_not_mem hwin, if_neg (by omega)]

/-- On newline-free input the chunker's offsets depend only on the input
length; each chunk is the untruncated window. -/
theorem chunksLoop_no_newline {s : List Char} (hnl : '\n' ∉ s) (n ov : Nat) :
    ∀ fuel i, chunksLoop fuel s n ov i =
      (offsetsLoop fuel s.length n ov i).map (fun k => (s.drop k).take n) := by
  intro fuel
  induction fuel with
  | zero => intro i; rfl
  | succ fuel ih =>
    intro i
    rw [chunksLoop, offsetsLoop]
    by_cases hi : i < s.length
    · rw [if_pos hi, if_pos hi, List.map_cons]
      rw [segAt_no_newline hnl, ih]
      have hstep : ((s.drop i).take n).length = min n (s.length - i) := by
        simp [List.length_take, List.length_drop]
      rw [hstep]
    · rw [if_neg hi, if_neg hi, List.map_nil]

/-- Text of `m+1` one-letter words separated by single spaces: the text
`"a a ... a"`, of length `2*m + 1`. -/
def awords : Nat → List Char
  | 0 => ['a']
  | m + 1 => 'a' :: ' ' :: awords m

/-- The concrete pipeline text for the Claim C10 counterexample: 6001
one-letter words separated by single spaces, total length 12001. -/
def chunkCexText : List Char := awords 6000

theorem awords_length (m : Nat) : (awords m).length = 2 * m + 1 := by
  induction m with
  | zero => rfl
  | succ m ih => rw [awords, List.length_cons, List.length_cons, ih]; omega

theorem awords_no_newline (m : Nat) : '\n' ∉ awords m := by
  induction m with
  | zero => decide
  | succ m ih =>
    intro h
    rcases List.mem_cons.mp h with h' | h'
    · exact absurd h' (by decide)
    · rcases List.mem_cons.mp h' with h'' | h''
      · exact absurd h'' (by decide)
      · exact ih h''

theorem awords_collapseWS (m : Nat) : ∀ b, collapseWSAux (awords m) b = awords m := by
  induction m with
  | zero => intro b; rfl
  | succ m ih =>
    intro b
    rw [awords, collapseWSAux, if_neg (by decide)]
    rw [collapseWSAux, if_pos (by decide), if_neg (by decide)]
    rw [ih true]

theorem awords_pySplit (m : Nat) :
    pySplitAux (awords m) [] = List.replicate m ['a'] ++ [['a']] := by
  induction m with
  | zero => rfl
  | succ m ih =>
    rw [awords, pySplitAux, if_neg (by decide), pySplitAux, if_pos (by decide),
      if_neg (by decide)]
    rw [ih, List.replicate_succ]
    rfl

theorem awords_append_a (m : Nat) :
    ∃ X : List Char, awords m = X ++ ['a'] := by
  induction m with
  | zero => exact ⟨[], rfl⟩
  | succ m ih =>
    obtain ⟨X, hX⟩ := ih
    exact ⟨'a' :: ' ' :: X, by rw [awords, hX]; rfl⟩

theorem awords_pyStrip (m : Nat) : pyStrip (awords m) = awords m := by
  have hdrop : (awords m).dropWhile isPySpace = awords m := by
    cases m with
    | zero => rfl
    | succ m => rw [awords, List.dropWhile_cons_of_neg (by decide)]
  obtain ⟨X, hX⟩ := awords_append_a m
  rw [pyStrip, hdrop, hX, List.reverse_append, List.reverse_singleton,
    List.singleton_append, List.dropWhile_cons_of_neg (by decide),
    List.reverse_cons, List.reverse_reverse]

theorem awords_cleanedText {m : Nat} (hm : 2 ≤ m) :
    cleanedText [awords m] = awords m := by
  have hne : (awords m).isEmpty = false := by
    cases m with
    | zero => rfl
    | succ m => rfl
  have hw : (pySplit (awords m)).length = m + 1 := by
    rw [pySplit, awords_pySplit, List.length_append, List.length_replicate]
    rfl
  have hkeep : keepFragment (awords m) = true := by
    rw [keepFragment, hne]
    have h3 : decide (3 ≤ (pySplit (awords m)).length) = true := by
      rw [hw]
      exact decide_eq_true (by omega)
    rw [h3]
    rfl
  have hparts : partsOf [awords m] = [awords m] := by
    rw [partsOf, List.filter_cons, if_pos hkeep]
    rfl
  have hjoin : joinNL [awords m] = awords m := by
    rw [joinNL, List.intercalate, List.intersperse_singleton, List.flatten_cons,
      List.flatten_nil, List.append_nil]
  rw [cleanedText, hparts, hjoin, collapseWS, awords_collapseWS m false,
    awords_pyStrip]

set_option maxRecDepth 100000 in
/-- Claim C10 counterexample: `chunkCexText` is a realizable fetch_clean
output (a single retained fragment; `fetch_clean_model` returns exactly it)
containing no newline, yet with the pipeline parameters
`(maxLen, overlap) = (12000, 400)` the chunker produces 402 chunks whose
SECOND chunk (index 1, far from last) has length 401, not `maxLen`:
the claim that every chunk except possibly the last has length exactly
`maxLen` is false. -/
theorem fetch_chunks_uniform_length_cex :
    ('\n' ∉ chunkCexText) ∧
    fetch_clean_model none [chunkCexText] = Except.ok ([], chunkCexText) ∧
    (chunks chunkCexText 12000 400).length = 402 ∧
    ((chunks chunkCexText 12000 400)[1]?).map List.length = some 401 ∧
    (1 : Nat) < 402 - 1 ∧ (401 : Nat) ≠ 12000 := by
  have hlen : chunkCexText.length = 12001 := by
    rw [chunkCexText, awords_length]
  have hnl : '\n' ∉ chunkCexText := awords_no_newline 6000
  have hct : cleanedText [chunkCexText] = chunkCexText :=
    awords_cleanedText (by omega)
  have hfetch : fetch_clean_model none [chunkCexText] =
      Except.ok ([], chunkCexText) := by
    rw [fetch_clean_model, hct]
    rw [if_neg (by rw [show chunkCexText.isEmpty = false from rfl]; simp)]
    rfl
  have hloop : chunks chunkCexText 12000 400 =
      (offsetsLoop 12001 12001 12000 400 0).map
        (fun k => (chunkCexText.drop k).take 12000) := by
    rw [chunks, if_neg (by omega), chunksLoop_no_newline hnl, hlen]
  refine ⟨hnl, hfetch, ?_, ?_, by omega, by omega⟩
  · rw [hloop, List.length_map]
    decide
  · rw [hloop, List.getElem?_map]
    have h1 : (offsetsLoop 12001 12001 12000 400 0)[1]? = some 11600 := by
      decide
    rw [h1]
    simp [List.length_take, List.length_drop, hlen]

/-- Claim C10 (amended): every text value returned by `fetch_clean`
contains no newline character (fragments are joined with `"\n"` but every
whitespace run is then collapsed to a single space), so within the
summarize_url pipeline the chunker's line-break truncation branch is never
taken: every chunk is the untruncated window `text[i:i+maxLen]`, of length
`min(maxLen, len(text) - i)`.  (Chunks shorter than `maxLen` can occur
before the last one, in the shrinking tail of the input, as the
counterexample shows; only the "exactly maxLen except possibly the last"
part of the original claim is dropped.) -/
theorem fetch_text_no_newline_chunks :
    ∀ titleTag frags title text,
      fetch_clean_model titleTag frags = Except.ok (title, text) →
      ('\n' ∉ text) ∧
      ∀ n ov, 1 ≤ n → ∀ c ∈ chunks text n ov,
        ∃ i, c = (text.drop i).take n ∧
          c.length = min n (text.length - i) := by
  intro titleTag frags title text h
  have htext : text = cleanedText frags := by
    rw [fetch_clean_model] at h
    by_cases he : (cleanedText frags).isEmpty
    · rw [if_pos he] at h; cases h
    · rw [if_neg he] at h
      simp only [Except.ok.injEq, Prod.mk.injEq] at h
      exact h.2.symm
  have hnl : '\n' ∉ text := htext ▸ no_newline_cleanedText frags
  refine ⟨hnl, ?_⟩
  intro n ov hn c hc
  by_cases hshort : text.length ≤ n
  · rw [chunks, if_pos hshort] at hc
    rcases List.mem_singleton.mp hc with rfl
    refine ⟨0, ?_, ?_⟩
    · rw [List.drop_zero, List.take_of_length_le hshort]
    · rw [Nat.sub_zero, Nat.min_eq_right hshort]
  · rw [chunks, if_neg hshort] at hc
    rw [chunksLoop_no_newline hnl] at hc
    obtain ⟨i, _, rfl⟩ := List.mem_map.mp hc
    exact ⟨i, rfl, by simp [List.length_take, List.length_drop]⟩

/-- Claim C10 witness: the amended theorem at a concrete page. -/
theorem fetch_text_no_newline_chunks_witness :
    ('\n' ∉ cl "a b c") ∧
    ∀ n ov, 1 ≤ n → ∀ c ∈ chunks (cl "a b c") n ov,
      ∃ i, c = ((cl "a b c").drop i).take n ∧
        c.length = min n ((cl "a b c").length - i) :=
  fetch_text_no_newline_chunks none [cl "a b c"] [] (cl "a b c") rfl

/-- JSON values as produced by Python's `json.loads`.  Numeric literals are
kept as their raw source text (`num`): the pipeline never computes with
numbers, only stores and re-serialises them, so only the success/failure of
the parse and the truthiness of the value matter. -/
inductive J where
  | null
  | bool (b : Bool)
  | num (raw : List Char)
  | str (s : List Char)
  | arr (xs : List J)
  | obj (kvs : List (List Char × J))

/-- Python dict insertion: an existing key keeps its position and gets the
new value, a new key is appended.  `json.loads` builds its dicts this way,
so parsed objects never carry duplicate keys. -/
def dictInsert : List (List Char × J) → List Char → J → List (List Char × J)
  | [], k, v => [(k, v)]
  | (k', v') :: rest, k, v =>
    if k' = k then (k', v) :: rest else (k', v') :: dictInsert rest k v

/-- Python dict lookup on the association list. -/
def lookupKV : List (List Char × J) → List Char → Option J
  | [], _ => none
  | (k', v) :: rest, k => if k' = k then some v else lookupKV rest k

/-- JSON whitespace as skipped by `json.loads` (space, tab, newline, CR). -/
def isJsonWS (c : Char) : Bool :=
  c = ' ' || c = '\t' || c = '\n' || c = '\r'

def skipJWS (l : List Char) : List Char := l.dropWhile isJsonWS

def isHexDigitCh (c : Char) : Bool :=
  c.isDigit || ('a' ≤ c && c ≤ 'f') || ('A' ≤ c && c ≤ 'F')

def hexVal (c : Char) : Nat :=
  if c.isDigit then c.toNat - '0'.toNat
  else if 'a' ≤ c && c ≤ 'f' then c.toNat - 'a'.toNat + 10
  else c.toNat - 'A'.toNat + 10

/-- The two-character escapes accepted inside JSON strings. -/
def escChar : Char → Option Char
  | '"' => some '"'
  | '\\' => some '\\'
  | '/' => some '/'
  | 'b' => some '\x08'
  | 'f' => some '\x0c'
  | 'n' => some '\n'
  | 'r' => some '\r'
  | 't' => some '\t'
  | _ => none

/-- JSON string body (after the opening quote): strict mode, so raw control
characters are rejected; `\uXXXX` becomes the character with that code
(surrogate-pair combination is not modelled; no claim involves it). -/
def pString : List Char → Option (List Char × List Char)
  | [] => none
  | '"' :: r => some ([], r)
  | '\\' :: 'u' :: h1 :: h2 :: h3 :: h4 :: r =>
    if isHexDigitCh h1 && isHexDigitCh h2 && isHexDigitCh h3 && isHexDigitCh h4 then
      match pString r with
      | some (s, r') =>
        some (Char.ofNat
          (((hexVal h1 * 16 + hexVal h2) * 16 + hexVal h3) * 16 + hexVal h4) :: s, r')
      | none => none
    else none
  | '\\' :: e :: r =>
    match escChar e with
    | some c =>
      match pString r with
      | some (s, r') => some (c :: s, r')
      | none => none
    | none => none
  | c :: r =>
    if c.toNat < 32 then none
    else
      match pString r with
      | some (s, r') => some (c :: s, r')
      | none => none

/-- One or more decimal digits. -/
def pDigits (l : List Char) : Option (List Char × List Char) :=
  let ds := l.takeWhile Char.isDigit
  if ds.isEmpty then none else some (ds, l.dropWhile Char.isDigit)

/-- JSON integer part: `0` or a nonzero digit followed by digits. -/
def pIntPart : List Char → Option (List Char × List Char)
  | '0' :: c :: r => if c.isDigit then none else some (['0'], c :: r)
  | ['0'] => some (['0'], [])
  | l => pDigits l

/-- Optional fraction `.digits`. -/
def pFrac : List Char → Option (List Char × List Char)
  | '.' :: r =>
    match pDigits r with
    | some (ds, r') => some ('.' :: ds, r')
    | none => none
  | l => some ([], l)

/-- Optional exponent `e/E [+-] digits`. -/
def pExpPart : List Char → Option (List Char × List Char)
  | e :: r =>
    if e = 'e' || e = 'E' then
      match r with
      | '+' :: r1 =>
        match pDigits r1 with
        | some (ds, r') => some (e :: '+' :: ds, r')
        | none => none
      | '-' :: r1 =>
        match pDigits r1 with
        | some (ds, r') => some (e :: '-' :: ds, r')
        | none => none
      | r1 =>
        match pDigits r1 with
        | some (ds, r') => some (e :: ds, r')
        | none => none
    else some ([], e :: r)
  | [] => some ([], [])

/-- JSON number grammar, returning the raw matched text. -/
def pNumber (l : List Char) : Option (List Char × List Char) :=
  match l with
  | '-' :: l1 =>
    match pIntPart l1 with
    | none => none
    | some (ip, r1) =>
      match pFrac r1 with
      | none => none
      | some (fp, r2) =>
        match pExpPart r2 with
        | none => none
        | some (ep, r3) => some ('-' :: (ip ++ fp ++ ep), r3)
  | _ =>
    match pIntPart l with
    | none => none
    | some (ip, r1) =>
      match pFrac r1 with
      | none => none
      | some (fp, r2) =>
        match pExpPart r2 with
        | none => none
        | some (ep, r3) => some (ip ++ fp ++ ep, r3)

/-- Array elements after the first has been required (loop fuel bounds the
number of iterations; it is instantiated so that it never runs out on any
input that the grammar accepts). -/
def pElemsLoop (pv : List Char → Option (J × List Char)) :
    Nat → List J → List Char → Option (J × List Char)
  | 0, _, _ => none
  | lfuel + 1, acc, l =>
    match pv l with
    | none => none
    | some (v, r) =>
      match skipJWS r with
      | ',' :: r2 => pElemsLoop pv lfuel (acc ++ [v]) (skipJWS r2)
      | ']' :: r2 => some (J.arr (acc ++ [v]), r2)
      | _ => none

def pElemsFirst (pv : List Char → Option (J × List Char)) (lfuel : Nat)
    (l : List Char) : Option (J × List Char) :=
  match l with
  | ']' :: r => some (J.arr [], r)
  | _ => pElemsLoop pv lfuel [] l

/-- Object members after the first has been required. -/
def pMembersLoop (pv : List Char → Option (J × List Char)) :
    Nat → List (List Char × J) → List Char → Option (J × List Char)
  | 0, _, _ => none
  | lfuel + 1, acc, l =>
    match l with
    | '"' :: r =>
      match pString r with
      | none => none
      | some (k, r1) =>
        match skipJWS r1 with
        | ':' :: r2 =>
          match pv (skipJWS r2) with
          | none => none
          | some (v, r3) =>
            match skipJWS r3 with
            | ',' :: r4 => pMembersLoop pv lfuel (dictInsert acc k v) (skipJWS r4)
            | '\x7d' :: r4 => some (J.obj (dictInsert acc k v), r4)
            | _ => none
        | _ => none
    | _ => none

def pMembersFirst (pv : List Char → Option (J × List Char)) (lfuel : Nat)
    (l : List Char) : Option (J × List Char) :=
  match l with
  | '\x7d' :: r => some (J.obj [], r)
  | _ => pMembersLoop pv lfuel [] l

/-- JSON value parser; `fuel` bounds the nesting depth. -/
def pValue : Nat → List Char → Option (J × List Char)
  | 0, _ => none
  | _ + 1, [] => none
  | fuel + 1, c :: cs =>
    if c = '"' then
      match pString cs with
      | some (s, r) => some (J.str s, r)
      | none => none
    else if c = '\x7b' then
      pMembersFirst (pValue fuel) (cs.length + 1) (skipJWS cs)
    else if c = '[' then
      pElemsFirst (pValue fuel) (cs.length + 1) (skipJWS cs)
    else if (cl "true").isPrefixOf (c :: cs) then
      some (J.bool true, (c :: cs).drop 4)
    else if (cl "false").isPrefixOf (c :: cs) then
      some (J.bool false, (c :: cs).drop 5)
    else if (cl "null").isPrefixOf (c :: cs) then
      some (J.null, (c :: cs).drop 4)
    else if (cl "NaN").isPrefixOf (c :: cs) then
      some (J.num (cl "NaN"), (c :: cs).drop 3)
    else if (cl "Infinity").isPrefixOf (c :: cs) then
      some (J.num (cl "Infinity"), (c :: cs).drop 8)
    else if (cl "-Infinity").isPrefixOf (c :: cs) then
      some (J.num (cl "-Infinity"), (c :: cs).drop 9)
    else
      match pNumber (c :: cs) with
      | some (raw, r) => some (J.num raw, r)
      | none => none

/-- Python `json.loads` (src/main.py lines 53, 57): parse one JSON document,
allowing surrounding whitespace, rejecting trailing data. -/
def jloads (s : List Char) : Option J :=
  match pValue (s.length + 1) (skipJWS s) with
  | some (v, rest) => if (skipJWS rest).isEmpty then some v else none
  | none => none

example : jloads (cl "  \x7b\"a\": [1, true, null]\x7d ") =
    some (J.obj [(cl "a", J.arr [J.num (cl "1"), J.bool true, J.null])]) := by rfl

example : jloads (cl "\x7b\"abstract\":\"x\",\"bullets\":[\"a\"]\x7d") =
    some (J.obj [(cl "abstract", J.str (cl "x")),
                 (cl "bullets", J.arr [J.str (cl "a")])]) := by rfl

example : jloads (cl "just plain text") = none := by rfl

example : jloads (cl "\x7bbad\x7d") = none := by rfl

example : jloads (cl "-12.5e+3") = some (J.num (cl "-12.5e+3")) := by rfl

example : jloads (cl "01") = none := by rfl

example : jloads (cl "\"a\\nb\"") = some (J.str ['a', '\n', 'b']) := by rfl

example : jloads (cl "\x7b\"k\":1,\x7d") = none := by rfl

/-- Lazy search for the close of the fenced group: at each `}` of the
remainder, succeed if (after whitespace) a closing fence follows; otherwise
the `}` is absorbed into the non-greedy `.*?`. -/
def fencedClose : List Char → List Char → Option (List Char)
  | _, [] => none
  | revMid, c :: r =>
    if c = '\x7d' && (cl "```").isPrefixOf (r.dropWhile isPySpace) then
      some ('\x7b' :: (revMid.reverse ++ ['\x7d']))
    else fencedClose (c :: revMid) r

/-- Attempt of the pattern `` ```json\s*(\{.*?\})\s*``` `` anchored at the
head of `l`; returns the group (the braced span). -/
def fencedAt (l : List Char) : Option (List Char) :=
  if (cl "```json").isPrefixOf l then
    match (l.drop 7).dropWhile isPySpace with
    | '\x7b' :: r => fencedClose [] r
    | _ => none
  else none

/-- Model of `re.search(r"```json\s*(\{.*?\})\s*```", s, re.S)` (src/main.py
line 55): leftmost position wins. -/
def fencedSearch : List Char → Option (List Char)
  | [] => none
  | c :: cs =>
    match fencedAt (c :: cs) with
    | some g => some g
    | none => fencedSearch cs

/-- The prefix of `l` that ends at the last `}` of `l`, if any. -/
def lastCloseSeg (l : List Char) : Option (List Char) :=
  match l.reverse.dropWhile (fun c => !(c = '\x7d')) with
  | [] => none
  | r => some r.reverse

/-- Model of `re.search(r"(\{.*\})", s, re.S)` (src/main.py line 55): the group runs
from the first `{` that has a `}` somewhere after it, greedily to the last
`}` of the input. -/
def braceSearch : List Char → Option (List Char)
  | [] => none
  | c :: cs =>
    if c = '\x7b' then
      match lastCloseSeg cs with
      | some seg => some ('\x7b' :: seg)
      | none => braceSearch cs
    else braceSearch cs

/-- Model of `re.search(fenced) or re.search(braced)` (src/main.py line 55): Python's
`or` keeps the first match object when the fenced search succeeds. -/
def regexFallbackSearch (s : List Char) : Option (List Char) :=
  match fencedSearch s with
  | some g => some g
  | none => braceSearch s

/-- The total-failure fallback `{"abstract": s.strip(), "bullets": []}`
(src/main.py line 59). -/
def fallbackJ (s : List Char) : J :=
  J.obj [(cl "abstract", J.str (pyStrip s)), (cl "bullets", J.arr [])]

/-- Model of `parse_json` (src/main.py lines 51-59). -/
def parse_json (s : List Char) : J :=
  match jloads s with
  | some v => v
  | none =>
    match regexFallbackSearch s with
    | some g =>
      match jloads g with
      | some v => v
      | none => fallbackJ s
    | none => fallbackJ s

/-- Lookup of a key of a (dict) result; `none` on a non-dict. -/
def getKey (j : J) (k : List Char) : Option J :=
  match j with
  | J.obj kvs => lookupKV kvs k
  | _ => none

example : fencedSearch (cl "pre ```json \x7b\"a\":1\x7d ``` post") =
    some (cl "\x7b\"a\":1\x7d") := by rfl

example : braceSearch (cl "x \x7ba\x7d y \x7bb\x7d z") =
    some (cl "\x7ba\x7d y \x7bb\x7d") := by rfl

/-- Input for the Claim C4 counterexample: the Python string
`x {"a": "```json {b} ```"}` — not valid JSON as a whole, containing a
fenced block whose contents `{b}` are invalid, while the first-to-last
brace span is the valid object `{"a": "```json {b} ```"}`. -/
def cascadeCexInput : List Char := cl "x \x7b\"a\": \"```json \x7bb\x7d ```\"\x7d"

/-- Claim C4 counterexample: on `cascadeCexInput` the full parse fails, the
fenced search matches with unparseable contents `{b}`, and the brace span
WOULD parse to an object with key `"a"` — yet `parse_json` returns the
fallback (whose dict has no key `"a"`): stage (c) is never attempted once
the fenced regex has matched, contradicting the claim. -/
theorem parse_json_cascade_cex :
    jloads cascadeCexInput = none ∧
    fencedSearch cascadeCexInput = some (cl "\x7bb\x7d") ∧
    jloads (cl "\x7bb\x7d") = none ∧
    braceSearch cascadeCexInput = some (cl "\x7b\"a\": \"```json \x7bb\x7d ```\"\x7d") ∧
    jloads (cl "\x7b\"a\": \"```json \x7bb\x7d ```\"\x7d") =
      some (J.obj [(cl "a", J.str (cl "```json \x7bb\x7d ```"))]) ∧
    parse_json cascadeCexInput = fallbackJ cascadeCexInput ∧
    getKey (parse_json cascadeCexInput) (cl "a") = none ∧
    getKey (J.obj [(cl "a", J.str (cl "```json \x7bb\x7d ```"))]) (cl "a") =
      some (J.str (cl "```json \x7bb\x7d ```")) :=
  ⟨rfl, rfl, rfl, rfl, rfl, rfl, rfl, rfl⟩

/-- Claim C4 (amended): the repair cascade is (a) parse the full payload;
on failure (b) search for a fenced ```json block and, if one matches, parse
its contents, returning the fallback if that parse fails WITHOUT attempting
(c); (c) the first-to-last brace span is searched and parsed only when no
fenced block matches at all; (d) otherwise the fallback is returned. -/
theorem parse_json_cascade_order :
    (∀ (s : List Char) (v : J), jloads s = some v → parse_json s = v) ∧
    (∀ (s g : List Char), jloads s = none → fencedSearch s = some g →
      parse_json s = (jloads g).getD (fallbackJ s)) ∧
    (∀ (s g : List Char), jloads s = none → fencedSearch s = none →
      braceSearch s = some g →
      parse_json s = (jloads g).getD (fallbackJ s)) ∧
    (∀ s : List Char, jloads s = none → fencedSearch s = none →
      braceSearch s = none → parse_json s = fallbackJ s) := by
  refine ⟨?_, ?_, ?_, ?_⟩
  · intro s v h
    simp only [parse_json, h]
  · intro s g h1 h2
    simp only [parse_json, h1, regexFallbackSearch, h2]
    cases hg : jloads g with
    | some v => simp [hg]
    | none => simp [hg]
  · intro s g h1 h2 h3
    simp only [parse_json, h1, regexFallbackSearch, h2, h3]
    cases hg : jloads g with
    | some v => simp [hg]
    | none => simp [hg]
  · intro s h1 h2 h3
    simp only [parse_json, h1, regexFallbackSearch, h2, h3]

/-- Claim C4 witness: the spec's own example — prose around a fenced,
parseable block — goes through stage (b). -/
theorem parse_json_cascade_order_witness :
    jloads (cl "Some prose ```json \x7b\"abstract\":\"x\",\"bullets\":[\"a\"]\x7d ``` trailing") = none ∧
    fencedSearch (cl "Some prose ```json \x7b\"abstract\":\"x\",\"bullets\":[\"a\"]\x7d ``` trailing") =
      some (cl "\x7b\"abstract\":\"x\",\"bullets\":[\"a\"]\x7d") ∧
    jloads (cl "\x7b\"abstract\":\"x\",\"bullets\":[\"a\"]\x7d") =
      some (J.obj [(cl "abstract", J.str (cl "x")),
                   (cl "bullets", J.arr [J.str (cl "a")])]) ∧
    parse_json (cl "Some prose ```json \x7b\"abstract\":\"x\",\"bullets\":[\"a\"]\x7d ``` trailing") =
      (jloads (cl "\x7b\"abstract\":\"x\",\"bullets\":[\"a\"]\x7d")).getD
        (fallbackJ (cl "Some prose ```json \x7b\"abstract\":\"x\",\"bullets\":[\"a\"]\x7d ``` trailing")) :=
  ⟨rfl, rfl, rfl,
    parse_json_cascade_order.2.1 _ _ rfl rfl⟩

/-- Claim C6: `parse_json` is total (it is a function in this model; the
Python code catches every parse exception), and whenever the input is not
valid JSON and the recovered span — fenced block if one matches, else the
brace span — is absent or itself unparseable, the result is exactly
`{"abstract": input.strip(), "bullets": []}`; in particular
`"just plain text"` yields exactly that shape. -/
theorem parse_json_total_fallback :
    (∀ s : List Char, jloads s = none →
      (∀ g, regexFallbackSearch s = some g → jloads g = none) →
      parse_json s =
        J.obj [(cl "abstract", J.str (pyStrip s)), (cl "bullets", J.arr [])]) ∧
    parse_json (cl "just plain text") =
      J.obj [(cl "abstract", J.str (cl "just plain text")),
             (cl "bullets", J.arr [])] := by
  constructor
  · intro s h1 h2
    simp only [parse_json, h1]
    cases hm : regexFallbackSearch s with
    | none => rfl
    | some g =>
      simp only [hm, h2 g hm]
      rfl
  · rfl

/-- Claim C6 witness: the fallback theorem applied at a concrete
non-JSON, non-fenced, non-braced input. -/
theorem parse_json_total_fallback_witness :
    parse_json (cl "zzz") =
      J.obj [(cl "abstract", J.str (pyStrip (cl "zzz"))),
             (cl "bullets", J.arr [])] :=
  parse_json_total_fallback.1 (cl "zzz") rfl
    (fun g h => by
      rw [show regexFallbackSearch (cl "zzz") = none from rfl] at h
      cases h)

/-- Python truthiness of a JSON value (`or`, `if not out` etc.): empty
string/list/dict, None, False and numeric zero are falsy. -/
def isZeroNumRaw (raw : List Char) : Bool :=
  let mant := raw.takeWhile (fun c => !(c = 'e' || c = 'E'))
  let digits := mant.filter Char.isDigit
  !digits.isEmpty && digits.all (· = '0')

def pyTruthy : J → Bool
  | J.null => false
  | J.bool b => b
  | J.num raw => !(isZeroNumRaw raw)
  | J.str s => !s.isEmpty
  | J.arr xs => !xs.isEmpty
  | J.obj kvs => !kvs.isEmpty

def asStr : J → Option (List Char)
  | J.str s => some s
  | _ => none

def asArr : J → Option (List J)
  | J.arr xs => some xs
  | _ => none

/-- Python `d.get(k, default)`; `none` models the `AttributeError` raised
when the value is not a dict. -/
def dictGet (j : J) (k : List Char) (d : J) : Option J :=
  match j with
  | J.obj kvs => some ((lookupKV kvs k).getD d)
  | _ => none

/-- Python `d.setdefault(k, default)`: only a MISSING key is inserted; an
existing key — even one bound to a falsy value — is left unchanged. -/
def setdefaultJ (j : J) (k : List Char) (d : J) : Option J :=
  match j with
  | J.obj kvs =>
    if (lookupKV kvs k).isSome then some (J.obj kvs)
    else some (J.obj (kvs ++ [(k, d)]))
  | _ => none

/-- Python `d[k] = v`. -/
def setItem (j : J) (k : List Char) (v : J) : Option J :=
  match j with
  | J.obj kvs => some (J.obj (dictInsert kvs k v))
  | _ => none

def joinSpace (l : List (List Char)) : List Char := List.intercalate [' '] l

/-- Substring test (used only to build concrete model oracles). -/
def containsSub (hay needle : List Char) : Bool :=
  hay.tails.any (fun t => needle.isPrefixOf t)

/-- The prompt of `summarize_block` (src/main.py lines 62-69), including the
16000-character content cap. -/
def promptOf (text : List Char) (b w : Nat) : List Char :=
  cl "You are a precise, neutral summarizer. Return STRICT JSON only with keys: abstract, bullets.\nFormat: \x7b\"abstract\":\"<= " ++
  (Nat.repr w).data ++ cl " words\",\"bullets\":[\"up to " ++
  (Nat.repr b).data ++ cl " key points\"]\x7d\n\nCONTENT:\n" ++ text.take 16000

/-- Model of `summarize_block` (src/main.py lines 61-78).  The model call and the
response-payload extraction are external; they are abstracted as the
oracle `respond`, mapping the prompt to the raw text payload `out`. -/
def summarize_block (respond : List Char → List Char) (text : List Char)
    (b w : Nat) : J :=
  parse_json (respond (promptOf text b w))

/-- The per-chunk summaries (src/main.py line 83): bullet count clamped to
7, word cap clamped to 220, chunker at its defaults. -/
def sectOf (text : List Char) (respond : List Char → List Char)
    (b w : Nat) : List J :=
  (chunks text 12000 400).map
    (fun c => summarize_block respond c (min 7 b) (min 220 w))

/-- Model of `merged_abs` (src/main.py line 84):
`" ".join(s.get("abstract","") for s in sect)[:20000]`; `none` models the
run raising (non-dict section or non-string abstract). -/
def mergedAbsOf (sect : List J) : Option (List Char) :=
  match sect.mapM (fun s => (dictGet s (cl "abstract") (J.str [])).bind asStr) with
  | some l => some ((joinSpace l).take 20000)
  | none => none

/-- Model of `merged_bul` (src/main.py line 85):
`sum((s.get("bullets",[]) for s in sect), [])[:bullets]`. -/
def mergedBulOf (sect : List J) (b : Nat) : Option (List J) :=
  match sect.mapM (fun s => (dictGet s (cl "bullets") (J.arr [])).bind asArr) with
  | some ls => some (ls.flatten.take b)
  | none => none

/-- Model of `summarize_url` (src/main.py lines 80-90), after `fetch_clean` and
`make_model`: the fetched page is abstracted as the `(title, text)` pair
(claim C9/C10 cover `fetch_clean` itself) and the model as `respond`.
A `none` result models the run raising an uncaught exception. -/
def summarize_url_model (url title text : List Char)
    (respond : List Char → List Char) (b w : Nat) : Option J :=
  match mergedAbsOf (sectOf text respond b w) with
  | none => none
  | some merged_abs =>
    match mergedBulOf (sectOf text respond b w) b with
    | none => none
    | some merged_bul =>
      match setdefaultJ (summarize_block respond merged_abs b w)
          (cl "abstract") (J.str (merged_abs.take (w * 8))) with
      | none => none
      | some final1 =>
        match dictGet final1 (cl "bullets") (J.arr []) with
        | none => none
        | some bv =>
          match setItem final1 (cl "bullets")
              (if pyTruthy bv then bv else J.arr merged_bul) with
          | none => none
          | some final2 =>
            match setItem final2 (cl "title") (J.str title) with
            | none => none
            | some final3 => setItem final3 (cl "url") (J.str url)

theorem lookupKV_dictInsert_ne (kvs : List (List Char × J)) (k k' : List Char)
    (v : J) (h : k ≠ k') :
    lookupKV (dictInsert kvs k v) k' = lookupKV kvs k' := by
  induction kvs with
  | nil => simp [dictInsert, lookupKV, h]
  | cons p rest ih =>
    rw [dictInsert]
    by_cases hpk : p.1 = k
    · rw [if_pos hpk, lookupKV, lookupKV]
      have hne : ¬ p.1 = k' := fun he => h (hpk ▸ he)
      rw [if_neg hne, if_neg hne]
    · rw [if_neg hpk, lookupKV, lookupKV, ih]

theorem lookupKV_dictInsert_self (kvs : List (List Char × J)) (k : List Char)
    (v : J) : lookupKV (dictInsert kvs k v) k = some v := by
  induction kvs with
  | nil => simp [dictInsert, lookupKV]
  | cons p rest ih =>
    rw [dictInsert]
    by_cases hpk : p.1 = k
    · rw [if_pos hpk, lookupKV, if_pos hpk]
    · rw [if_neg hpk, lookupKV, if_neg hpk, ih]

theorem lookupKV_append_ne (kvs : List (List Char × J)) (k k' : List Char)
    (v : J) (h : k' ≠ k) :
    lookupKV (kvs ++ [(k', v)]) k = lookupKV kvs k := by
  induction kvs with
  | nil => simp [lookupKV, h]
  | cons p rest ih =>
    rw [List.cons_append, lookupKV, lookupKV]
    by_cases hpk : p.1 = k
    · rw [if_pos hpk, if_pos hpk]
    · rw [if_neg hpk, if_neg hpk, ih]

theorem lookupKV_append_self (kvs : List (List Char × J)) (k : List Char)
    (v : J) (h : lookupKV kvs k = none) :
    lookupKV (kvs ++ [(k, v)]) k = some v := by
  induction kvs with
  | nil => simp [lookupKV]
  | cons p rest ih =>
    rw [lookupKV] at h
    rw [List.cons_append, lookupKV]
    by_cases hpk : p.1 = k
    · rw [if_pos hpk] at h; cases h
    · rw [if_neg hpk] at h
      rw [if_neg hpk, ih h]

/-- Model oracle for the Claim C2 counterexample: the per-chunk call (its
prompt contains the page text `"hello"`) returns abstract `"A1"`; the final
merge call returns an EMPTY abstract together with a non-empty bullets
list. -/
def abstractCexRespond (p : List Char) : List Char :=
  if containsSub p (cl "hello") then
    cl "\x7b\"abstract\":\"A1\",\"bullets\":[]\x7d"
  else cl "\x7b\"abstract\":\"\",\"bullets\":[\"x\"]\x7d"

/-- Claim C2 counterexample: the merged abstract is `"A1"` and the final
call's result binds the key `"abstract"` to the EMPTY string, so per the
claim the returned abstract should be the first `maxWords*8` characters of
`"A1"` (i.e. `"A1"`); but `setdefault` leaves an existing key untouched,
and the returned abstract is the empty string. -/
theorem summarize_url_setdefault_cex :
    mergedAbsOf (sectOf (cl "hello") abstractCexRespond 6 180) = some (cl "A1") ∧
    summarize_block abstractCexRespond (cl "A1") 6 180 =
      J.obj [(cl "abstract", J.str []), (cl "bullets", J.arr [J.str (cl "x")])] ∧
    (summarize_url_model (cl "u") (cl "t") (cl "hello") abstractCexRespond
      6 180).bind (fun r => getKey r (cl "abstract")) = some (J.str []) ∧
    (cl "A1").take (180 * 8) = cl "A1" ∧
    ([] : List Char) ≠ cl "A1" :=
  ⟨rfl, rfl, rfl, rfl, by decide⟩

/-- Claim C2 (amended): the abstract fallback is governed by `setdefault`:
when the final call's result is a dict WITHOUT the key `"abstract"`, the
returned abstract is the first `maxWords*8` characters of the merged
abstract; when the key is present — even bound to the empty string — the
final call's own value is returned unchanged. -/
theorem summarize_url_abstract_fallback :
    ∀ (url title text : List Char) (respond : List Char → List Char)
      (b w : Nat) (ma : List Char) (mb : List J) (kvs : List (List Char × J)),
      mergedAbsOf (sectOf text respond b w) = some ma →
      mergedBulOf (sectOf text respond b w) b = some mb →
      summarize_block respond ma b w = J.obj kvs →
      (lookupKV kvs (cl "abstract") = none →
        (summarize_url_model url title text respond b w).bind
          (fun r => getKey r (cl "abstract")) =
            some (J.str (ma.take (w * 8)))) ∧
      (∀ v, lookupKV kvs (cl "abstract") = some v →
        (summarize_url_model url title text respond b w).bind
          (fun r => getKey r (cl "abstract")) = some v) := by
  intro url title text respond b w ma mb kvs hma hmb hblock
  constructor
  · intro hnone
    simp only [summarize_url_model, hma, hmb, hblock, setdefaultJ, hnone,
      Option.isSome_none, Bool.false_eq_true, if_false, dictGet, setItem,
      Option.bind, getKey]
    rw [lookupKV_dictInsert_ne _ _ _ _ (by decide),
      lookupKV_dictInsert_ne _ _ _ _ (by decide),
      lookupKV_dictInsert_ne _ _ _ _ (by decide),
      lookupKV_append_self _ _ _ hnone]
  · intro v hv
    simp only [summarize_url_model, hma, hmb, hblock, setdefaultJ, hv,
      Option.isSome_some, if_true, dictGet, setItem, Option.bind, getKey]
    rw [lookupKV_dictInsert_ne _ _ _ _ (by decide),
      lookupKV_dictInsert_ne _ _ _ _ (by decide),
      lookupKV_dictInsert_ne _ _ _ _ (by decide),
      hv]

/-- Model oracle for the Claim C2 witness: the final merge call returns a
dict with NO `"abstract"` key at all, so the fallback fires. -/
def abstractMissingRespond (p : List Char) : List Char :=
  if containsSub p (cl "hello") then
    cl "\x7b\"abstract\":\"A1\",\"bullets\":[]\x7d"
  else cl "\x7b\"bullets\":[\"x\"]\x7d"

/-- Claim C2 witness: the amended fallback theorem at a concrete run where
the final call's dict is missing the `"abstract"` key. -/
theorem summarize_url_abstract_fallback_witness :
    (summarize_url_model (cl "u") (cl "t") (cl "hello") abstractMissingRespond
      6 180).bind (fun r => getKey r (cl "abstract")) =
        some (J.str ((cl "A1").take (180 * 8))) :=
  (summarize_url_abstract_fallback (cl "u") (cl "t") (cl "hello")
    abstractMissingRespond 6 180 (cl "A1") []
    [(cl "bullets", J.arr [J.str (cl "x")])] rfl rfl rfl).1 rfl

/-- Model oracle for the Claim C3 counterexample: every call returns TWO
bullets. -/
def bulletCexRespond (_ : List Char) : List Char :=
  cl "\x7b\"abstract\":\"a\",\"bullets\":[\"x\",\"y\"]\x7d"

/-- Claim C3 counterexample: with requested bullet count `B = 1` the merged
bullets are correctly capped at 1, but the final call's own (non-empty)
bullets list is used unmodified, and the returned FinalSummary carries 2
bullets — more than `B`. -/
theorem summarize_url_bullets_cex :
    mergedBulOf (sectOf (cl "hi") bulletCexRespond 1 180) 1 =
      some [J.str (cl "x")] ∧
    ((summarize_url_model (cl "u") (cl "t") (cl "hi") bulletCexRespond
      1 180).bind (fun r => (getKey r (cl "bullets")).bind asArr)).map
        List.length = some 2 ∧
    ¬ (2 ≤ 1) :=
  ⟨rfl, rfl, by decide⟩

/-- Claim C3 (amended): the merged bullets list never exceeds the requested
count `B`, and whenever the final call's bullets value is falsy (missing,
empty, or otherwise falsy) the returned bullets are exactly the merged
(≤ B) list; but when the final call returns a truthy bullets list it is
used unmodified and its length is not bounded by `B`. -/
theorem mergedBulOf_length_le {sect : List J} {b : Nat} {mb : List J}
    (h : mergedBulOf sect b = some mb) : mb.length ≤ b := by
  rw [mergedBulOf] at h
  cases hm : sect.mapM
      (fun s => (dictGet s (cl "bullets") (J.arr [])).bind asArr) with
  | none => rw [hm] at h; cases h
  | some ls =>
    rw [hm] at h
    simp only [Option.some.injEq] at h
    subst h
    simp [List.length_take]

theorem summarize_url_bullet_cap :
    (∀ (sect : List J) (b : Nat) (mb : List J),
      mergedBulOf sect b = some mb → mb.length ≤ b) ∧
    (∀ (url title text : List Char) (respond : List Char → List Char)
      (b w : Nat) (ma : List Char) (mb : List J) (kvs : List (List Char × J)),
      mergedAbsOf (sectOf text respond b w) = some ma →
      mergedBulOf (sectOf text respond b w) b = some mb →
      summarize_block respond ma b w = J.obj kvs →
      pyTruthy ((lookupKV kvs (cl "bullets")).getD (J.arr [])) = false →
      (summarize_url_model url title text respond b w).bind
        (fun r => getKey r (cl "bullets")) = some (J.arr mb) ∧
      mb.length ≤ b) := by
  constructor
  · intro sect b mb h
    exact mergedBulOf_length_le h
  · intro url title text respond b w ma mb kvs hma hmb hblock hfalsy
    cases hab : lookupKV kvs (cl "abstract") with
    | none =>
      have hbul1 : lookupKV (kvs ++ [(cl "abstract", J.str (ma.take (w * 8)))])
          (cl "bullets") = lookupKV kvs (cl "bullets") :=
        lookupKV_append_ne _ _ _ _ (by decide)
      refine ⟨?_, ?_⟩
      · simp only [summarize_url_model, hma, hmb, hblock, setdefaultJ, hab,
          Option.isSome_none, Bool.false_eq_true, if_false, dictGet, setItem,
          Option.bind, getKey, hbul1, hfalsy]
        rw [lookupKV_dictInsert_ne _ _ _ _ (by decide),
          lookupKV_dictInsert_ne _ _ _ _ (by decide),
          lookupKV_dictInsert_self]
      · exact mergedBulOf_length_le hmb
    | some v =>
      refine ⟨?_, ?_⟩
      · simp only [summarize_url_model, hma, hmb, hblock, setdefaultJ, hab,
          Option.isSome_some, if_true, dictGet, setItem, Option.bind, getKey,
          hfalsy, Bool.false_eq_true, if_false]
        rw [lookupKV_dictInsert_ne _ _ _ _ (by decide),
          lookupKV_dictInsert_ne _ _ _ _ (by decide),
          lookupKV_dictInsert_self]
      · exact mergedBulOf_length_le hmb

/-- Model oracle for the Claim C3 witness: the final call returns an EMPTY
(falsy) bullets list, so the capped merged list is used. -/
def bulletFallbackRespond (_ : List Char) : List Char :=
  cl "\x7b\"abstract\":\"a\",\"bullets\":[]\x7d"

/-- Claim C3 witness: the amended cap theorem at a concrete run taking the
fallback branch. -/
theorem summarize_url_bullet_cap_witness :
    (summarize_url_model (cl "u") (cl "t") (cl "hi") bulletFallbackRespond
      1 180).bind (fun r => getKey r (cl "bullets")) = some (J.arr []) ∧
    ([] : List J).length ≤ 1 :=
  summarize_url_bullet_cap.2 (cl "u") (cl "t") (cl "hi") bulletFallbackRespond
    1 180 (cl "a") [] [(cl "abstract", J.str (cl "a")), (cl "bullets", J.arr [])]
    rfl rfl rfl rfl

example : chunks (cl "hello") 12000 400 = [cl "hello"] := by decide

example : chunks (cl "abcdefgh") 5 2 = [cl "abcde", cl "defgh", cl "gh", cl "h"] := by
  decide

example : chunks (cl "abcdef\nghijk") 10 0 =
    [cl "abcdef\nghi", cl "jk"] := by decide
